import Mathlib

/-!
Verification of the `libddprof` profile aggregation engine and exporter
helpers against their natural-language specification.

The Rust sources are shallowly embedded:
* `ddprof-profiles/src/lib.rs` — the interning store, dedup containers,
  `Profile::add`, `Profile::reset`, and the pprof projection.
* `ddprof-exporter/src/connector.rs` — the `unix://` URI codec and the
  scheme dispatch of `MaybeHttpsConnector::call`.
* `ddprof-exporter/src/tag.rs` — `Tag::new` and `parse_tag_chunk`.
* `ddprof-exporter/src/errors.rs` — the error enum.

`IndexSet`/`IndexMap` are modelled as insertion-ordered lists; machine
integers are modelled as `Nat`/`Int` with explicit bounds where the code
performs fallible conversions.  Wall-clock and monotonic instants are
explicit numeric parameters.
-/

/-! ## List-level primitives shared by the dedup containers -/

/-- Index of the first occurrence of `a` in a list, if any.  This is the
lookup underlying `IndexSet::get_index_of` / `insert_full`. -/
def firstIdxOf? {α : Type} [DecidableEq α] : List α → α → Option Nat
  | [], _ => none
  | x :: xs, a => if x = a then some 0 else (firstIdxOf? xs a).map (· + 1)

/-- `IndexSet::insert_full`: returns the updated set, the index of the item,
and whether an insertion happened. -/
def insert_full {α : Type} [DecidableEq α] (s : List α) (item : α) :
    List α × Nat × Bool :=
  match firstIdxOf? s item with
  | some i => (s, i, false)
  | none => (s ++ [item], s.length, true)

/-- `DedupExt::dedup` for `IndexSet` (ddprof-profiles/src/lib.rs): insert via
`insert_full` and report the index. -/
def dedup {α : Type} [DecidableEq α] (s : List α) (item : α) : List α × Nat :=
  let r := insert_full s item
  (r.1, r.2.1)

/-- `DedupExt::dedup_ref`: look up first, insert only on a miss. -/
def dedup_ref {α : Type} [DecidableEq α] (s : List α) (item : α) : List α × Nat :=
  match firstIdxOf? s item with
  | some index => (s, index)
  | none =>
    let r := insert_full s item
    (r.1, r.2.1)

/-- `l'` extends `l` by some (possibly empty) suffix: entries of `l` are
never removed, replaced, or reordered in `l'`. -/
def ListGrows {α : Type} (l l' : List α) : Prop := ∃ t, l' = l ++ t

/-! ## The profile data model (ddprof-profiles/src/lib.rs) -/

/-- Newtype over an index into one of the profile containers
(`struct PProfId(usize)`). -/
structure PProfId where
  toNat : Nat
deriving DecidableEq, Repr

/-- Internal `Mapping` entry, unique by full tuple. -/
structure Mapping where
  memory_start : Nat
  memory_limit : Nat
  file_offset : Nat
  filename : PProfId
  build_id : PProfId
deriving DecidableEq, Repr

/-- Internal `Function` entry; `start_line` is a `u63` (non-negative). -/
structure Function where
  name : PProfId
  system_name : PProfId
  filename : PProfId
  start_line : Nat
deriving DecidableEq, Repr

/-- Internal `Line` value type. -/
structure Line where
  function_id : PProfId
  line : Int
deriving DecidableEq, Repr

/-- Internal `Label` value type; 0 means "unset" for the string ids. -/
structure Label where
  key : PProfId
  str : PProfId
  num : Int
  num_unit : PProfId
deriving DecidableEq, Repr

/-- Internal `Location` entry, unique by full tuple. -/
structure Location where
  mapping_id : PProfId
  address : Nat
  lines : List Line
  is_folded : Bool
deriving DecidableEq, Repr

/-- Internal `Sample` key: location-id sequence plus label sequence. -/
structure Sample where
  locations : List PProfId
  labels : List Label
deriving DecidableEq, Repr

/-- Internal `ValueType`: string ids for type and unit. -/
structure ValueType where
  type_ : PProfId
  unit : PProfId
deriving DecidableEq, Repr

/-- The in-memory profile.  The `IndexSet`/`IndexMap` containers are
insertion-ordered lists; `started_at` is a monotonic instant in
nanoseconds and `start_time` a wall-clock time in nanoseconds since the
Unix epoch. -/
structure Profile where
  sample_types : List ValueType
  samples : List (Sample × List Int)
  mappings : List Mapping
  locations : List Location
  functions : List Function
  strings : List String
  started_at : Nat
  start_time : Int
  period : Int
  period_type : Option ValueType
deriving DecidableEq, Repr

/-- `struct FullError`, the capacity-exhaustion error. -/
structure FullError where
deriving DecidableEq, Repr

/-- Decidable equality for `Except` results, used to evaluate concrete
outcomes. -/
instance {e a : Type} [DecidableEq e] [DecidableEq a] :
    DecidableEq (Except e a) := fun x y =>
  match x, y with
  | .error e1, .error e2 =>
    if h : e1 = e2 then .isTrue (by rw [h])
    else .isFalse (by intro hc; cases hc; exact h rfl)
  | .error _, .ok _ => .isFalse (by intro hc; cases hc)
  | .ok _, .error _ => .isFalse (by intro hc; cases hc)
  | .ok a1, .ok a2 =>
    if h : a1 = a2 then .isTrue (by rw [h])
    else .isFalse (by intro hc; cases hc; exact h rfl)

/-- `CONTAINER_MAX = (u32::MAX - 1) as usize`. -/
def CONTAINER_MAX : Nat := 2 ^ 32 - 2

/-! ## The `api` input types (borrowed-slice producers) -/

namespace api

/-- `api::ValueType`. -/
structure ValueType where
  type_ : String
  unit : String
deriving DecidableEq, Repr

/-- `api::Period`. -/
structure Period where
  type_ : ValueType
  value : Int
deriving DecidableEq, Repr

/-- `api::Mapping`. -/
structure Mapping where
  memory_start : Nat
  memory_limit : Nat
  file_offset : Nat
  filename : String
  build_id : String
deriving DecidableEq, Repr

/-- `api::Function`; `start_line` is an `i64` that the engine clamps at 0. -/
structure Function where
  name : String
  system_name : String
  filename : String
  start_line : Int
deriving DecidableEq, Repr

/-- `api::Line`. -/
structure Line where
  function : Function
  line : Int
deriving DecidableEq, Repr

/-- `api::Location`. -/
structure Location where
  mapping : Mapping
  address : Nat
  lines : List Line
  is_folded : Bool
deriving DecidableEq, Repr

/-- `api::Label`; `str` and `num_unit` are optional strings. -/
structure Label where
  key : String
  str : Option String
  num : Int
  num_unit : Option String
deriving DecidableEq, Repr

/-- `api::Sample`. -/
structure Sample where
  locations : List Location
  values : List Int
  labels : List Label
deriving DecidableEq, Repr

end api

/-! ## Profile operations -/

/-- `Profile::intern`: dedup the string by reference, returning its id.
String ids are used unshifted. -/
def Profile.intern (p : Profile) (str : String) : Profile × PProfId :=
  let r := dedup_ref p.strings str
  ({ p with strings := r.1 }, ⟨r.2⟩)

/-- `Profile::new`: all containers empty, then the empty string is
interned (landing at id 0). -/
def Profile.new (started_at : Nat) (start_time : Int) : Profile :=
  let profile : Profile := {
    sample_types := []
    samples := []
    mappings := []
    locations := []
    functions := []
    strings := []
    started_at := started_at
    start_time := start_time
    period := 0
    period_type := none }
  (profile.intern "").1

/-- `Profile::add_mapping`: capacity-guarded dedup of a mapping; the
returned id is the insertion index shifted by one. -/
def Profile.add_mapping (p : Profile) (mapping : api.Mapping) :
    Profile × Except FullError PProfId :=
  if CONTAINER_MAX ≤ p.strings.length ∨ CONTAINER_MAX ≤ p.mappings.length then
    (p, .error {})
  else
    let r1 := p.intern mapping.filename
    let r2 := r1.1.intern mapping.build_id
    let r3 := dedup r2.1.mappings
      { memory_start := mapping.memory_start
        memory_limit := mapping.memory_limit
        file_offset := mapping.file_offset
        filename := r1.2
        build_id := r2.2 }
    ({ r2.1 with mappings := r3.1 }, .ok ⟨r3.2 + 1⟩)

/-- `Profile::add_function`: dedup of a function (negative `start_line`
clamps to 0); the returned id is the insertion index shifted by one. -/
def Profile.add_function (p : Profile) (function : api.Function) :
    Profile × PProfId :=
  let r1 := p.intern function.name
  let r2 := r1.1.intern function.system_name
  let r3 := r2.1.intern function.filename
  let r4 := dedup r3.1.functions
    { name := r1.2
      system_name := r2.2
      filename := r3.2
      start_line := if function.start_line < 0 then 0 else function.start_line.toNat }
  ({ r3.1 with functions := r4.1 }, ⟨r4.2 + 1⟩)

/-- One step of the label-interning pass of `Profile::add`: intern
`key`, `str`, `num_unit` in order; absent optional strings yield id 0. -/
def Profile.internLabel (p : Profile) (label : api.Label) : Profile × Label :=
  let r1 := p.intern label.key
  let r2 := match label.str with
    | some s => r1.1.intern s
    | none => (r1.1, ⟨0⟩)
  let r3 := match label.num_unit with
    | some s => r2.1.intern s
    | none => (r2.1, ⟨0⟩)
  (r3.1, { key := r1.2, str := r2.2, num := label.num, num_unit := r3.2 })

/-- The label-interning pass of `Profile::add`, in input order. -/
def Profile.internLabels (p : Profile) : List api.Label → Profile × List Label
  | [] => (p, [])
  | l :: ls =>
    let r := p.internLabel l
    let rs := r.1.internLabels ls
    (rs.1, r.2 :: rs.2)

/-- The per-line pass of `Profile::add`: each line's function is added
and the line carries the shifted function id. -/
def Profile.addLines (p : Profile) : List api.Line → Profile × List Line
  | [] => (p, [])
  | l :: ls =>
    let r := p.add_function l.function
    let rs := r.1.addLines ls
    (rs.1, { function_id := r.2, line := l.line } :: rs.2)

/-- One iteration of the location loop of `Profile::add`: add the
mapping (propagating `Full`), add the lines, dedup the location. -/
def Profile.addLocation (p : Profile) (location : api.Location) :
    Profile × Except FullError PProfId :=
  let rm := p.add_mapping location.mapping
  match rm.2 with
  | .error e => (rm.1, .error e)
  | .ok mapping_id =>
    let rl := rm.1.addLines location.lines
    let rd := dedup rl.1.locations
      { mapping_id := mapping_id
        address := location.address
        lines := rl.2
        is_folded := location.is_folded }
    ({ rl.1 with locations := rd.1 }, .ok ⟨rd.2 + 1⟩)

/-- The location loop of `Profile::add`; an error aborts the loop (the
`?` operator) but keeps the mutations made so far. -/
def Profile.addLocations (p : Profile) :
    List api.Location → Profile × Except FullError (List PProfId)
  | [] => (p, .ok [])
  | loc :: locs =>
    let r := p.addLocation loc
    match r.2 with
    | .error e => (r.1, .error e)
    | .ok id =>
      let rs := r.1.addLocations locs
      match rs.2 with
      | .error e => (rs.1, .error e)
      | .ok ids => (rs.1, .ok (id :: ids))

/-- `IndexMap::get_index_of` on the sample map. -/
def getIndexOf? (m : List (Sample × List Int)) (key : Sample) : Option Nat :=
  firstIdxOf? (m.map Prod.fst) key

/-- In-place elementwise `add_assign` of the incoming values into the
existing ones; `zip` leaves any surplus existing entries untouched. -/
def addAssignZip : List Int → List Int → List Int
  | [], _ => []
  | e :: es, [] => e :: es
  | e :: es, v :: vs => (e + v) :: addAssignZip es vs

/-- Replace the values stored at `index` of the sample map by their
elementwise sum with `vs`. -/
def updateValuesAt : List (Sample × List Int) → Nat → List Int →
    List (Sample × List Int)
  | [], _, _ => []
  | kv :: rest, 0, vs => (kv.1, addAssignZip kv.2 vs) :: rest
  | kv :: rest, n + 1, vs => kv :: updateValuesAt rest n vs

/-- `Profile::add`.  A value-count mismatch returns sample id 0 without
mutating; otherwise labels are interned, the location loop runs
(propagating `Full`), and the sample key is inserted or its values are
summed in place.  The final state is returned alongside the result so
that mutations preceding an error are kept, as in the Rust `&mut self`
code. -/
def Profile.add (p : Profile) (sample : api.Sample) :
    Profile × Except FullError PProfId :=
  if sample.values.length ≠ p.sample_types.length then (p, .ok ⟨0⟩)
  else
    let values := sample.values
    let rl := p.internLabels sample.labels
    let ra := rl.1.addLocations sample.locations
    match ra.2 with
    | .error e => (ra.1, .error e)
    | .ok locationIds =>
      let s : Sample := { locations := locationIds, labels := rl.2 }
      match getIndexOf? ra.1.samples s with
      | none =>
        ({ ra.1 with samples := ra.1.samples ++ [(s, values)] },
          .ok ⟨ra.1.samples.length + 1⟩)
      | some index =>
        ({ ra.1 with samples := updateValuesAt ra.1.samples index values },
          .ok ⟨index + 1⟩)

/-- `Profile::get_string`. -/
def Profile.get_string (p : Profile) (id : PProfId) : Option String :=
  p.strings.get? id.toNat

/-- The sample-type interning pass of `ProfileBuilder::build`. -/
def Profile.internValueTypes (p : Profile) :
    List api.ValueType → Profile × List ValueType
  | [] => (p, [])
  | vt :: vts =>
    let r1 := p.intern vt.type_
    let r2 := r1.1.intern vt.unit
    let rs := r2.1.internValueTypes vts
    (rs.1, { type_ := r1.2, unit := r2.2 } :: rs.2)

/-- `ProfileBuilder::build`: a fresh profile whose sample types and
period are re-interned into the new string table. -/
def ProfileBuilder.build (sample_types : List api.ValueType)
    (period : Option api.Period) (started_at : Nat) (start_time : Int) :
    Profile :=
  let p0 := Profile.new started_at start_time
  let r := p0.internValueTypes sample_types
  let p1 := { r.1 with sample_types := r.2 }
  match period with
  | none => p1
  | some per =>
    let rt := p1.intern per.type_.type_
    let ru := rt.1.intern per.type_.unit
    { ru.1 with
        period := per.value
        period_type := some { type_ := rt.2, unit := ru.2 } }

/-- `Profile::extract_api_sample_types`: resolve every sample type back
to strings, failing if any id is out of range. -/
def Profile.extract_api_sample_types (p : Profile) :
    List ValueType → Option (List api.ValueType)
  | [] => some []
  | vt :: vts =>
    match p.strings.get? vt.type_.toNat, p.strings.get? vt.unit.toNat,
        p.extract_api_sample_types vts with
    | some t, some u, some rest => some ({ type_ := t, unit := u } :: rest)
    | _, _, _ => none

/-- `Profile::reset`: build a fresh profile carrying the same sample
types and period (re-interned), swap it in, and return the previous
profile.  The result pair is (new current profile, returned previous
profile). -/
def Profile.reset (p : Profile) (started_at : Nat) (start_time : Int) :
    Option (Profile × Profile) :=
  match p.extract_api_sample_types p.sample_types with
  | none => none
  | some sample_types =>
    match p.period_type with
    | none =>
      some (ProfileBuilder.build sample_types none started_at start_time, p)
    | some t =>
      match p.strings.get? t.type_.toNat, p.strings.get? t.unit.toNat with
      | some ty, some un =>
        some (ProfileBuilder.build sample_types
          (some { type_ := { type_ := ty, unit := un }, value := p.period })
          started_at start_time, p)
      | _, _ => none

/-! ## The pprof projection (`impl From<&Profile> for pprof::Profile`) -/

namespace pprof

/-- pprof `ValueType` message; ids are `i64` indices into the string table. -/
structure ValueType where
  type_ : Int
  unit : Int
deriving DecidableEq, Repr

/-- pprof `Label` message. -/
structure Label where
  key : Int
  str : Int
  num : Int
  num_unit : Int
deriving DecidableEq, Repr

/-- pprof `Line` message; `function_id` is a `u64`. -/
structure Line where
  function_id : Nat
  line : Int
deriving DecidableEq, Repr

/-- pprof `Sample` message. -/
structure Sample where
  location_id : List Nat
  value : List Int
  label : List Label
deriving DecidableEq, Repr

/-- pprof `Mapping` message (the fields the encoder fills in). -/
structure Mapping where
  id : Nat
  memory_start : Nat
  memory_limit : Nat
  file_offset : Nat
  filename : Int
  build_id : Int
deriving DecidableEq, Repr

/-- pprof `Location` message. -/
structure Location where
  id : Nat
  mapping_id : Nat
  address : Nat
  line : List Line
  is_folded : Bool
deriving DecidableEq, Repr

/-- pprof `Function` message. -/
structure Function where
  id : Nat
  name : Int
  system_name : Int
  filename : Int
  start_line : Int
deriving DecidableEq, Repr

/-- pprof `Profile` message (the fields the encoder fills in). -/
structure Profile where
  sample_type : List ValueType
  sample : List Sample
  mapping : List Mapping
  location : List Location
  function : List Function
  string_table : List String
  time_nanos : Int
  duration_nanos : Int
  period : Int
  period_type : Option ValueType
deriving DecidableEq, Repr

end pprof

/-- `impl From<PProfId> for u64`: `id.0.try_into().unwrap_or(0)`; a
`usize` always fits a `u64`, so this is the raw index. -/
def PProfId.toU64 (id : PProfId) : Nat := id.toNat

/-- `impl From<PProfId> for i64`: `id.0.try_into().unwrap_or(0)`; falls
back to 0 when the index exceeds `i64::MAX`. -/
def PProfId.toI64 (id : PProfId) : Int :=
  if id.toNat < 2 ^ 63 then (id.toNat : Int) else 0

/-- `impl From<&Line> for pprof::Line`. -/
def Line.toPprof (line : Line) : pprof.Line :=
  { function_id := line.function_id.toU64, line := line.line }

/-- `impl From<&Label> for pprof::Label`. -/
def Label.toPprof (label : Label) : pprof.Label :=
  { key := label.key.toI64
    str := label.str.toI64
    num := label.num
    num_unit := label.num_unit.toI64 }

/-- `impl From<&ValueType> for pprof::ValueType`. -/
def ValueType.toPprof (vt : ValueType) : pprof.ValueType :=
  { type_ := vt.type_.toI64, unit := vt.unit.toI64 }

/-- `SystemTime::duration_since(UNIX_EPOCH).map_or(0, |d| d.as_nanos() as i64)`:
0 for pre-epoch times, otherwise the nanosecond count cast wrapping into
`i64` (an `as` cast of the `u128`). -/
def timeNanosOf (start_time : Int) : Int :=
  if start_time < 0 then 0
  else
    let n : Nat := start_time.toNat % 2 ^ 64
    if n < 2 ^ 63 then (n : Int) else (n : Int) - 2 ^ 64

/-- `Instant::elapsed().as_nanos().try_into().unwrap_or(0)`: the elapsed
monotonic nanoseconds if they fit an `i64`, otherwise 0. -/
def durationNanosOf (started_at now_mono : Nat) : Int :=
  let elapsed := now_mono - started_at
  if elapsed < 2 ^ 63 then (elapsed : Int) else 0

/-- `impl From<&Profile> for pprof::Profile`.  `now_mono` is the
monotonic instant at which the conversion runs. -/
def Profile.toPprof (profile : Profile) (now_mono : Nat) : pprof.Profile :=
  { sample_type := profile.sample_types.map ValueType.toPprof
    sample := profile.samples.map fun sv =>
      { location_id := sv.1.locations.map PProfId.toU64
        value := sv.2
        label := sv.1.labels.map Label.toPprof }
    mapping := profile.mappings.enum.map fun im =>
      { id := im.1 + 1
        memory_start := im.2.memory_start
        memory_limit := im.2.memory_limit
        file_offset := im.2.file_offset
        filename := im.2.filename.toI64
        build_id := im.2.build_id.toI64 }
    location := profile.locations.enum.map fun il =>
      { id := il.1 + 1
        mapping_id := il.2.mapping_id.toU64
        address := il.2.address
        line := il.2.lines.map Line.toPprof
        is_folded := il.2.is_folded }
    function := profile.functions.enum.map fun jf =>
      { id := jf.1 + 1
        name := jf.2.name.toI64
        system_name := jf.2.system_name.toI64
        filename := jf.2.filename.toI64
        start_line := if jf.2.start_line < 2 ^ 63 then (jf.2.start_line : Int) else 0 }
    string_table := profile.strings
    time_nanos := timeNanosOf profile.start_time
    duration_nanos := durationNanosOf profile.started_at now_mono
    period := profile.period
    period_type := profile.period_type.map ValueType.toPprof }

/-! ## Reachable profiles -/

/-- Profiles producible by the public lifecycle: creation (directly or
through the builder), `add`, and the fresh profile installed by a
successful `reset`.  `serialize` takes `&self` and does not change the
profile. -/
inductive Profile.Reachable : Profile → Prop
  | new (started_at : Nat) (start_time : Int) :
      Profile.Reachable (Profile.new started_at start_time)
  | build (sample_types : List api.ValueType) (period : Option api.Period)
      (started_at : Nat) (start_time : Int) :
      Profile.Reachable (ProfileBuilder.build sample_types period started_at start_time)
  | add {p : Profile} (sample : api.Sample) :
      Profile.Reachable p → Profile.Reachable (p.add sample).1
  | reset {p q old : Profile} (started_at : Nat) (start_time : Int) :
      Profile.Reachable p → p.reset started_at start_time = some (q, old) →
      Profile.Reachable q

/-! ## Exporter: error enum (ddprof-exporter/src/errors.rs) -/

namespace exporter

/-- The exporter's error enum, exactly as spelled in `errors.rs`. -/
inductive Error
  | InvalidUrl
  | OperationTimedOut
  | UnixSockeUnsuported
  | CannotEstablishTlsConnection
  | NoValidCertifacteRootsFound
deriving DecidableEq, Repr

/-! ## Exporter: the `unix://` URI codec (connector.rs, `mod uds`) -/

namespace uds

/-- The slice of `hyper::Uri` the codec uses: scheme, optional
authority, and path-and-query. -/
structure Uri where
  scheme : String
  authority : Option String
  path_and_query : String
deriving DecidableEq, Repr

/-- Lowercase hex digit for a value below 16 (the `hex` crate's
alphabet). -/
def hexDigitChar (n : Nat) : Char :=
  Char.ofNat (if n < 10 then 48 + n else 87 + n)

/-- `hex::encode` on a byte sequence, as characters: two lowercase
digits per byte, high nibble first. -/
def hexChars : List Nat → List Char
  | [] => []
  | b :: bs => hexDigitChar (b / 16) :: hexDigitChar (b % 16) :: hexChars bs

/-- Value of one hex digit; `hex::decode` accepts both cases. -/
def hexVal? (c : Char) : Option Nat :=
  if 48 ≤ c.toNat ∧ c.toNat ≤ 57 then some (c.toNat - 48)
  else if 97 ≤ c.toNat ∧ c.toNat ≤ 102 then some (c.toNat - 87)
  else if 65 ≤ c.toNat ∧ c.toNat ≤ 70 then some (c.toNat - 55)
  else none

/-- `hex::decode`: fails on odd length or any non-hex character. -/
def hexDecodeChars : List Char → Option (List Nat)
  | [] => some []
  | [_] => none
  | c1 :: c2 :: cs =>
    match hexVal? c1, hexVal? c2, hexDecodeChars cs with
    | some hi, some lo, some rest => some ((16 * hi + lo) :: rest)
    | _, _, _ => none

/-- `uds::socket_path_to_uri`: a `unix` scheme URI whose authority is
the lowercase hex encoding of the path bytes, with empty path/query. -/
def socket_path_to_uri (path : List Nat) : Uri :=
  { scheme := "unix", authority := some ⟨hexChars path⟩, path_and_query := "" }

/-- `uds::socket_path_from_uri`: requires scheme `unix` and a
hex-decodable authority, yielding the path bytes. -/
def socket_path_from_uri (uri : Uri) : Except Error (List Nat) :=
  if uri.scheme ≠ "unix" then .error .InvalidUrl
  else
    match uri.authority with
    | none => .error .InvalidUrl
    | some a =>
      match hexDecodeChars a.data with
      | none => .error .InvalidUrl
      | some bytes => .ok bytes

end uds

/-! ## Exporter: connector dispatch (connector.rs) -/

/-- The two construction modes of `MaybeHttpsConnector`: `Https` when
root certificates loaded, `Http` otherwise (HTTP-only). -/
inductive MaybeHttpsConnector
  | Http
  | Https
deriving DecidableEq, Repr

/-- Outcome of the wrapped `hyper_rustls` connector: a plaintext or a
TLS stream. -/
inductive MaybeHttpsStream
  | Http
  | Https
deriving DecidableEq, Repr

/-- The variants of `ConnStream` that `call` can yield. -/
inductive ConnStreamKind
  | Tcp
  | Tls
  | Udp
deriving DecidableEq, Repr

/-- `MaybeHttpsConnector::call`, with the outcomes of the wrapped
transports passed in as oracles: `innerHttps` is what the wrapped
`hyper_rustls` connector resolves to, `innerHttp` what the plain
`HttpConnector` resolves to, and `udsConn` the result of parsing the
socket path and connecting the UNIX stream.  The function performs
exactly the scheme/mode dispatch of the source. -/
def MaybeHttpsConnector.call (mode : MaybeHttpsConnector) (scheme : Option String)
    (innerHttps : Except Error MaybeHttpsStream)
    (innerHttp : Except Error Unit)
    (udsConn : Except Error Unit) :
    Except Error ConnStreamKind :=
  match scheme with
  | some "unix" =>
    match udsConn with
    | .error e => .error e
    | .ok _ => .ok .Udp
  | some "https" =>
    match mode with
    | .Http => .error .CannotEstablishTlsConnection
    | .Https =>
      match innerHttps with
      | .error e => .error e
      | .ok .Http => .error .CannotEstablishTlsConnection
      | .ok .Https => .ok .Tls
  | _ =>
    match mode with
    | .Http =>
      match innerHttp with
      | .error e => .error e
      | .ok _ => .ok .Tcp
    | .Https =>
      match innerHttps with
      | .error e => .error e
      | .ok .Http => .ok .Tcp
      | .ok .Https => .ok .Tls

/-! ## Exporter: tags (tag.rs) -/

/-- Rust `char::is_whitespace`: the Unicode `White_Space` property. -/
def rustIsWhitespace (c : Char) : Bool :=
  c.toNat ∈ [0x09, 0x0A, 0x0B, 0x0C, 0x0D, 0x20, 0x85, 0xA0, 0x1680,
    0x2000, 0x2001, 0x2002, 0x2003, 0x2004, 0x2005, 0x2006, 0x2007,
    0x2008, 0x2009, 0x200A, 0x2028, 0x2029, 0x202F, 0x205F, 0x3000]

/-- `std::char::REPLACEMENT_CHARACTER`. -/
def replacementChar : Char := Char.ofNat 0xFFFD

/-- The predicate of `Tag::new`'s `find`: a character that is neither the
replacement character nor whitespace. -/
def tagValidChar (c : Char) : Bool :=
  !(c = replacementChar || rustIsWhitespace c)

/-- A key/value tag; strings are modelled as character lists. -/
structure Tag where
  key : List Char
  value : List Char
deriving DecidableEq, Repr

/-- `Tag::new`: reject an empty key, a key whose characters are all
whitespace or the replacement character, and a key whose first valid
character is a colon. -/
def Tag.new (key value : List Char) : Except String Tag :=
  if key = [] then .error "tag key was empty"
  else
    match key.find? tagValidChar with
    | none => .error "tag contained only whitespace or invalid unicode characters"
    | some c =>
      if c = ':' then .error "tag cannot start with a colon"
      else .ok { key := key, value := value }

/-- `parse_tag_chunk`: leading colon is an error; a chunk containing a
colon that also ends with a colon is an error; otherwise split at the
first colon (or take the whole chunk as key) and validate via
`Tag::new`. -/
def parse_tag_chunk (chunk : List Char) : Except String Tag :=
  match firstIdxOf? chunk ':' with
  | some first_colon_position =>
    if first_colon_position = 0 then .error "tag cannot start with a colon"
    else if chunk.getLast? = some ':' then .error "tag cannot end with a colon"
    else Tag.new (chunk.take first_colon_position)
      (chunk.drop (first_colon_position + 1))
  | none => Tag.new chunk []

end exporter

/-! ## The append-only growth relation and concrete inputs -/

/-- `q` extends `p`: every dedup container of `p` is an initial segment
of the corresponding container of `q` (sample keys included), and the
sample types are unchanged.  This is the state relation preserved by
`Profile::add`. -/
def Profile.Grows (p q : Profile) : Prop :=
  ListGrows p.strings q.strings ∧
  ListGrows p.mappings q.mappings ∧
  ListGrows p.functions q.functions ∧
  ListGrows p.locations q.locations ∧
  ListGrows (p.samples.map Prod.fst) (q.samples.map Prod.fst) ∧
  p.sample_types = q.sample_types

/-- A small builder-made profile with one sample type, used as concrete
input by witnesses. -/
def egProfile : Profile :=
  ProfileBuilder.build [{ type_ := "samples", unit := "count" }] none 0 0

/-- A concrete `api::Sample` (one location over the `php` mapping, a
`pid` label), used as concrete input by witnesses. -/
def egSample : api.Sample :=
  { locations := [
      { mapping := { memory_start := 0, memory_limit := 0, file_offset := 0,
                     filename := "php", build_id := "" }
        address := 0
        lines := [{ function := { name := "{main}", system_name := "{main}",
                                  filename := "index.php", start_line := 0 },
                    line := 0 }]
        is_folded := false }]
    values := [1]
    labels := [{ key := "pid", str := none, num := 101, num_unit := none }] }

/-- The internal sample key sitting at index `i` of `capProfile`:
no locations, one `pid` label with `num = i`. -/
def capSampleKey (i : Nat) : Sample :=
  { locations := [], labels := [{ key := ⟨3⟩, str := ⟨0⟩, num := (i : Int), num_unit := ⟨0⟩ }] }

/-- A sample map holding `CONTAINER_MAX` distinct entries.  Marked
irreducible so that definitional unification never tries to evaluate
the 2^32-entry list. -/
@[irreducible] def capSamples : List (Sample × List Int) :=
  (List.range CONTAINER_MAX).map fun i => (capSampleKey i, [1])

/-- A profile whose sample map already holds `CONTAINER_MAX` distinct
entries (all with empty location lists and distinct `pid` label
numbers). -/
def capProfile : Profile :=
  { sample_types := [{ type_ := ⟨1⟩, unit := ⟨2⟩ }]
    samples := capSamples
    mappings := []
    locations := []
    functions := []
    strings := ["", "samples", "count", "pid"]
    started_at := 0
    start_time := 0
    period := 0
    period_type := none }

/-- A sample whose key is distinct from every entry of `capProfile`
(label `num = CONTAINER_MAX`). -/
def capSample : api.Sample :=
  { locations := []
    values := [1]
    labels := [{ key := "pid", str := none, num := (CONTAINER_MAX : Int), num_unit := none }] }

/-- The byte sequence of the socket path `/path/to/a/socket.sock`. -/
def socketPathBytes : List Nat := "/path/to/a/socket.sock".data.map Char.toNat

/-- `egSample` with values `[5]` instead of `[1]`. -/
def cexSample5 : api.Sample :=
  { locations := egSample.locations, values := [5], labels := egSample.labels }

/-- A profile that already stores the key of `egSample` with values `[5]`. -/
def cexP0 : Profile := (egProfile.add cexSample5).1

/-- `cexP0` after one further add of `egSample`. -/
def cexP1 : Profile := (cexP0.add egSample).1

/-- `cexP1` after one further add of `egSample`. -/
def cexP2 : Profile := (cexP1.add egSample).1

/-! ## Lemmas: the list primitives -/

theorem firstIdxOf?_append_of_some {α : Type} [DecidableEq α] {l : List α}
    {a : α} {i : Nat} (t : List α) (h : firstIdxOf? l a = some i) :
    firstIdxOf? (l ++ t) a = some i := by
  induction l generalizing i with
  | nil => simp [firstIdxOf?] at h
  | cons x xs ih =>
    simp only [firstIdxOf?, List.cons_append] at h ⊢
    by_cases hx : x = a
    · simpa [hx] using h
    · simp only [hx, if_false, Option.map_eq_some'] at h ⊢
      obtain ⟨j, hj, rfl⟩ := h
      exact ⟨j, ih hj, rfl⟩

theorem firstIdxOf?_eq_none_iff {α : Type} [DecidableEq α] {l : List α}
    {a : α} : firstIdxOf? l a = none ↔ a ∉ l := by
  induction l with
  | nil => simp [firstIdxOf?]
  | cons x xs ih =>
    by_cases hx : x = a
    · simp [firstIdxOf?, hx]
    · simp only [firstIdxOf?, hx, if_false, Option.map_eq_none', ih,
        List.mem_cons, not_or]
      constructor
      · intro h
        exact ⟨fun hax => hx hax.symm, h⟩
      · intro h
        exact h.2

theorem firstIdxOf?_of_forall_ne {α : Type} [DecidableEq α] {l : List α}
    {a : α} (h : ∀ x ∈ l, x ≠ a) : firstIdxOf? l a = none :=
  firstIdxOf?_eq_none_iff.mpr fun hmem => (h a hmem) rfl

theorem firstIdxOf?_append_singleton_self {α : Type} [DecidableEq α]
    {l : List α} {a : α} (h : a ∉ l) :
    firstIdxOf? (l ++ [a]) a = some l.length := by
  induction l with
  | nil => simp [firstIdxOf?]
  | cons x xs ih =>
    simp only [List.mem_cons, not_or] at h
    have hx : ¬ x = a := fun hh => h.1 hh.symm
    simp [List.cons_append, firstIdxOf?, hx, ih h.2]

theorem firstIdxOf?_get? {α : Type} [DecidableEq α] {l : List α} {a : α}
    {i : Nat} (h : firstIdxOf? l a = some i) : l.get? i = some a := by
  induction l generalizing i with
  | nil => simp [firstIdxOf?] at h
  | cons x xs ih =>
    simp only [firstIdxOf?] at h
    by_cases hx : x = a
    · rw [if_pos hx] at h
      cases h
      simp [hx]
    · simp only [hx, if_false, Option.map_eq_some'] at h
      obtain ⟨j, hj, rfl⟩ := h
      simpa using ih hj

theorem ListGrows.refl {α : Type} (l : List α) : ListGrows l l := ⟨[], by simp⟩

theorem ListGrows.trans {α : Type} {l m n : List α} (h1 : ListGrows l m)
    (h2 : ListGrows m n) : ListGrows l n := by
  obtain ⟨t1, rfl⟩ := h1
  obtain ⟨t2, rfl⟩ := h2
  exact ⟨t1 ++ t2, by simp⟩

theorem ListGrows.append {α : Type} (l t : List α) : ListGrows l (l ++ t) :=
  ⟨t, rfl⟩

theorem ListGrows.get? {α : Type} {l l' : List α} (h : ListGrows l l')
    {i : Nat} {x : α} (hx : l.get? i = some x) : l'.get? i = some x := by
  obtain ⟨t, rfl⟩ := h
  have hi : i < l.length := List.get?_eq_some.mp hx |>.1
  rwa [List.get?_append hi]

theorem firstIdxOf?_of_grows {α : Type} [DecidableEq α] {l l' : List α}
    {a : α} {i : Nat} (h : ListGrows l l') (hi : firstIdxOf? l a = some i) :
    firstIdxOf? l' a = some i := by
  obtain ⟨t, rfl⟩ := h
  exact firstIdxOf?_append_of_some t hi

/-! ## Lemmas: dedup primitives -/

theorem dedup_ref_eq_dedup {α : Type} [DecidableEq α] (s : List α) (item : α) :
    dedup_ref s item = dedup s item := by
  unfold dedup_ref dedup insert_full
  cases h : firstIdxOf? s item <;> simp [h]

theorem dedup_of_found {α : Type} [DecidableEq α] {s : List α} {item : α}
    {i : Nat} (h : firstIdxOf? s item = some i) : dedup s item = (s, i) := by
  unfold dedup insert_full
  simp [h]

theorem dedup_of_missing {α : Type} [DecidableEq α] {s : List α} {item : α}
    (h : firstIdxOf? s item = none) :
    dedup s item = (s ++ [item], s.length) := by
  unfold dedup insert_full
  simp [h]

theorem dedup_spec {α : Type} [DecidableEq α] (s : List α) (item : α) :
    firstIdxOf? (dedup s item).1 item = some (dedup s item).2 := by
  cases h : firstIdxOf? s item with
  | some i => simp [dedup_of_found h, h]
  | none =>
    rw [dedup_of_missing h]
    exact firstIdxOf?_append_singleton_self (firstIdxOf?_eq_none_iff.mp h)

theorem dedup_grows {α : Type} [DecidableEq α] (s : List α) (item : α) :
    ListGrows s (dedup s item).1 := by
  cases h : firstIdxOf? s item with
  | some i => rw [dedup_of_found h]; exact ListGrows.refl s
  | none => rw [dedup_of_missing h]; exact ListGrows.append s [item]

theorem dedup_hit_of_grows {α : Type} [DecidableEq α] {s : List α} {x : α}
    {q : List α} (hg : ListGrows (dedup s x).1 q) :
    dedup q x = (q, (dedup s x).2) :=
  dedup_of_found (firstIdxOf?_of_grows hg (dedup_spec s x))

/-! ## Lemmas: interning -/

theorem intern_strings_spec (p : Profile) (s : String) :
    firstIdxOf? (p.intern s).1.strings s = some (p.intern s).2.toNat := by
  simp only [Profile.intern, dedup_ref_eq_dedup]
  exact dedup_spec p.strings s

theorem intern_replay {q : Profile} {s : String} {i : Nat}
    (h : firstIdxOf? q.strings s = some i) : q.intern s = (q, ⟨i⟩) := by
  simp [Profile.intern, dedup_ref_eq_dedup, dedup_of_found h]

theorem intern_replay_of {p q : Profile} {s : String}
    (hg : ListGrows (p.intern s).1.strings q.strings) :
    q.intern s = (q, (p.intern s).2) :=
  intern_replay (firstIdxOf?_of_grows hg (intern_strings_spec p s))

theorem Profile.Grows.grefl (p : Profile) : p.Grows p :=
  ⟨ListGrows.refl _, ListGrows.refl _, ListGrows.refl _, ListGrows.refl _,
    ListGrows.refl _, Eq.refl _⟩

theorem Profile.Grows.gtrans {p q r : Profile} (h1 : p.Grows q)
    (h2 : q.Grows r) : p.Grows r := by
  obtain ⟨a1, a2, a3, a4, a5, a6⟩ := h1
  obtain ⟨b1, b2, b3, b4, b5, b6⟩ := h2
  exact ⟨a1.trans b1, a2.trans b2, a3.trans b3, a4.trans b4, a5.trans b5,
    a6.trans b6⟩

theorem intern_grows (p : Profile) (s : String) : p.Grows (p.intern s).1 := by
  refine ⟨?_, ListGrows.refl _, ListGrows.refl _, ListGrows.refl _,
    ListGrows.refl _, Eq.refl _⟩
  show ListGrows p.strings (p.intern s).1.strings
  simp only [Profile.intern, dedup_ref_eq_dedup]
  exact dedup_grows _ _

theorem grows_with_mappings {p q : Profile} (h : p.Grows q)
    {ms : List Mapping} (hm : ListGrows q.mappings ms) :
    p.Grows { q with mappings := ms } := by
  obtain ⟨h1, h2, h3, h4, h5, h6⟩ := h
  exact ⟨h1, h2.trans hm, h3, h4, h5, h6⟩

theorem grows_with_functions {p q : Profile} (h : p.Grows q)
    {fs : List Function} (hf : ListGrows q.functions fs) :
    p.Grows { q with functions := fs } := by
  obtain ⟨h1, h2, h3, h4, h5, h6⟩ := h
  exact ⟨h1, h2, h3.trans hf, h4, h5, h6⟩

theorem grows_with_locations {p q : Profile} (h : p.Grows q)
    {ls : List Location} (hl : ListGrows q.locations ls) :
    p.Grows { q with locations := ls } := by
  obtain ⟨h1, h2, h3, h4, h5, h6⟩ := h
  exact ⟨h1, h2, h3, h4.trans hl, h5, h6⟩

theorem grows_with_samples_append {p q : Profile} (h : p.Grows q)
    (kv : Sample × List Int) :
    p.Grows { q with samples := q.samples ++ [kv] } := by
  obtain ⟨h1, h2, h3, h4, h5, h6⟩ := h
  refine ⟨h1, h2, h3, h4, ?_, h6⟩
  rw [List.map_append]
  exact h5.trans (ListGrows.append _ _)

theorem updateValuesAt_map_fst (m : List (Sample × List Int)) (i : Nat)
    (vs : List Int) : (updateValuesAt m i vs).map Prod.fst = m.map Prod.fst := by
  induction m generalizing i with
  | nil => rfl
  | cons kv rest ih => cases i <;> simp [updateValuesAt, ih]

theorem updateValuesAt_length (m : List (Sample × List Int)) (i : Nat)
    (vs : List Int) : (updateValuesAt m i vs).length = m.length := by
  induction m generalizing i with
  | nil => rfl
  | cons kv rest ih => cases i <;> simp [updateValuesAt, ih]

theorem grows_with_samples_update {p q : Profile} (h : p.Grows q)
    (i : Nat) (vs : List Int) :
    p.Grows { q with samples := updateValuesAt q.samples i vs } := by
  obtain ⟨h1, h2, h3, h4, h5, h6⟩ := h
  refine ⟨h1, h2, h3, h4, ?_, h6⟩
  rw [updateValuesAt_map_fst]
  exact h5

/-! ## Lemmas: growth of each `add` phase -/

theorem add_mapping_grows (p : Profile) (m : api.Mapping) :
    p.Grows (p.add_mapping m).1 := by
  simp only [Profile.add_mapping]
  split
  · exact Profile.Grows.grefl p
  · exact grows_with_mappings ((intern_grows p _).gtrans (intern_grows _ _))
      (dedup_grows _ _)

theorem add_function_grows (p : Profile) (f : api.Function) :
    p.Grows (p.add_function f).1 := by
  simp only [Profile.add_function]
  exact grows_with_functions
    (((intern_grows p _).gtrans (intern_grows _ _)).gtrans (intern_grows _ _))
    (dedup_grows _ _)

theorem internLabel_grows (p : Profile) (l : api.Label) :
    p.Grows (p.internLabel l).1 := by
  cases hs : l.str with
  | none =>
    cases hn : l.num_unit with
    | none =>
      simp only [Profile.internLabel, hs, hn]
      exact intern_grows p _
    | some u =>
      simp only [Profile.internLabel, hs, hn]
      exact (intern_grows p _).gtrans (intern_grows _ _)
  | some s =>
    cases hn : l.num_unit with
    | none =>
      simp only [Profile.internLabel, hs, hn]
      exact (intern_grows p _).gtrans (intern_grows _ _)
    | some u =>
      simp only [Profile.internLabel, hs, hn]
      exact ((intern_grows p _).gtrans (intern_grows _ _)).gtrans (intern_grows _ _)

theorem internLabels_grows (p : Profile) (ls : List api.Label) :
    p.Grows (p.internLabels ls).1 := by
  induction ls generalizing p with
  | nil => exact Profile.Grows.grefl p
  | cons l ls ih =>
    simp only [Profile.internLabels]
    exact (internLabel_grows p l).gtrans (ih _)

theorem addLines_grows (p : Profile) (ls : List api.Line) :
    p.Grows (p.addLines ls).1 := by
  induction ls generalizing p with
  | nil => exact Profile.Grows.grefl p
  | cons l ls ih =>
    simp only [Profile.addLines]
    exact (add_function_grows p l.function).gtrans (ih _)

theorem addLocation_grows (p : Profile) (loc : api.Location) :
    p.Grows (p.addLocation loc).1 := by
  simp only [Profile.addLocation]
  cases h : (p.add_mapping loc.mapping).2 with
  | error e =>
    simpa [h] using add_mapping_grows p loc.mapping
  | ok id =>
    simp only [h]
    exact grows_with_locations
      ((add_mapping_grows p _).gtrans (addLines_grows _ _)) (dedup_grows _ _)

theorem addLocations_grows (p : Profile) (locs : List api.Location) :
    p.Grows (p.addLocations locs).1 := by
  induction locs generalizing p with
  | nil => exact Profile.Grows.grefl p
  | cons loc locs ih =>
    simp only [Profile.addLocations]
    cases h : (p.addLocation loc).2 with
    | error e => simpa [h] using addLocation_grows p loc
    | ok id =>
      simp only [h]
      cases h2 : ((p.addLocation loc).1.addLocations locs).2 with
      | error e =>
        simpa [h2] using (addLocation_grows p loc).gtrans (ih _)
      | ok ids =>
        simp only [h2]
        exact (addLocation_grows p loc).gtrans (ih _)

theorem add_grows (p : Profile) (s : api.Sample) : p.Grows (p.add s).1 := by
  simp only [Profile.add]
  split
  · exact Profile.Grows.grefl p
  · cases h : ((p.internLabels s.labels).1.addLocations s.locations).2 with
    | error e =>
      simpa [h] using (internLabels_grows p s.labels).gtrans (addLocations_grows _ _)
    | ok ids =>
      simp only [h]
      have hbase : p.Grows ((p.internLabels s.labels).1.addLocations s.locations).1 :=
        (internLabels_grows p s.labels).gtrans (addLocations_grows _ _)
      cases hidx : getIndexOf?
          ((p.internLabels s.labels).1.addLocations s.locations).1.samples
          { locations := ids, labels := (p.internLabels s.labels).2 } with
      | none =>
        simp only [hidx]
        exact grows_with_samples_append hbase _
      | some index =>
        simp only [hidx]
        exact grows_with_samples_update hbase _ _

/-! ## Lemmas: fields untouched by each phase -/

theorem intern_samples (p : Profile) (s : String) :
    (p.intern s).1.samples = p.samples := rfl

theorem add_function_samples (p : Profile) (f : api.Function) :
    (p.add_function f).1.samples = p.samples := rfl

theorem add_mapping_samples (p : Profile) (m : api.Mapping) :
    (p.add_mapping m).1.samples = p.samples := by
  simp only [Profile.add_mapping]
  split <;> rfl

theorem internLabel_samples (p : Profile) (l : api.Label) :
    (p.internLabel l).1.samples = p.samples := by
  cases hs : l.str <;> cases hn : l.num_unit <;>
    simp [Profile.internLabel, hs, hn, Profile.intern]

theorem internLabels_samples (p : Profile) (ls : List api.Label) :
    (p.internLabels ls).1.samples = p.samples := by
  induction ls generalizing p with
  | nil => rfl
  | cons l ls ih =>
    simp only [Profile.internLabels]
    rw [ih, internLabel_samples]

theorem addLines_samples (p : Profile) (ls : List api.Line) :
    (p.addLines ls).1.samples = p.samples := by
  induction ls generalizing p with
  | nil => rfl
  | cons l ls ih =>
    simp only [Profile.addLines]
    rw [ih, add_function_samples]

theorem addLocation_samples (p : Profile) (loc : api.Location) :
    (p.addLocation loc).1.samples = p.samples := by
  simp only [Profile.addLocation]
  cases h : (p.add_mapping loc.mapping).2 with
  | error e => simp only [h]; exact add_mapping_samples p loc.mapping
  | ok id =>
    simp only [h]
    show (((p.add_mapping loc.mapping).1.addLines loc.lines).1).samples = p.samples
    rw [addLines_samples, add_mapping_samples]

theorem addLocations_samples (p : Profile) (locs : List api.Location) :
    (p.addLocations locs).1.samples = p.samples := by
  induction locs generalizing p with
  | nil => rfl
  | cons loc locs ih =>
    simp only [Profile.addLocations]
    cases h : (p.addLocation loc).2 with
    | error e => simp only [h]; exact addLocation_samples p loc
    | ok id =>
      simp only [h]
      cases h2 : ((p.addLocation loc).1.addLocations locs).2 with
      | error e =>
        simp only [h2]
        rw [ih, addLocation_samples]
      | ok ids =>
        simp only [h2]
        show (((p.addLocation loc).1.addLocations locs).1).samples = p.samples
        rw [ih, addLocation_samples]

/-! ## Lemmas: replaying a phase on a grown state is a no-op -/

theorem add_function_replay {p q : Profile} (f : api.Function)
    (hg : (p.add_function f).1.Grows q) :
    q.add_function f = (q, (p.add_function f).2) := by
  have g3 : ListGrows
      ((((p.intern f.name).1.intern f.system_name).1.intern f.filename).1).strings
      q.strings := hg.1
  have g2 : ListGrows ((p.intern f.name).1.intern f.system_name).1.strings
      q.strings := (intern_grows _ f.filename).1.trans g3
  have g1 : ListGrows (p.intern f.name).1.strings q.strings :=
    (intern_grows _ f.system_name).1.trans g2
  have e1 : q.intern f.name = (q, (p.intern f.name).2) := intern_replay_of g1
  have e2 : q.intern f.system_name =
      (q, ((p.intern f.name).1.intern f.system_name).2) := intern_replay_of g2
  have e3 : q.intern f.filename =
      (q, (((p.intern f.name).1.intern f.system_name).1.intern f.filename).2) :=
    intern_replay_of g3
  have hfg : ListGrows (p.add_function f).1.functions q.functions := hg.2.2.1
  have ed := dedup_hit_of_grows (s :=
    (((p.intern f.name).1.intern f.system_name).1.intern f.filename).1.functions)
    (x :=
      { name := (p.intern f.name).2
        system_name := ((p.intern f.name).1.intern f.system_name).2
        filename := (((p.intern f.name).1.intern f.system_name).1.intern f.filename).2
        start_line := if f.start_line < 0 then 0 else f.start_line.toNat })
    hfg
  simp only [Profile.add_function, e1, e2, e3, ed]

theorem add_mapping_replay {p q : Profile} (m : api.Mapping) {id : PProfId}
    (hok : (p.add_mapping m).2 = .ok id)
    (hg : (p.add_mapping m).1.Grows q)
    (hqs : q.strings.length < CONTAINER_MAX)
    (hqm : q.mappings.length < CONTAINER_MAX) :
    q.add_mapping m = (q, .ok id) := by
  by_cases hc : CONTAINER_MAX ≤ p.strings.length ∨ CONTAINER_MAX ≤ p.mappings.length
  · rw [Profile.add_mapping, if_pos hc] at hok
    exact absurd hok (by simp)
  · rw [Profile.add_mapping, if_neg hc] at hok hg
    have g2 : ListGrows (((p.intern m.filename).1.intern m.build_id).1).strings
        q.strings := hg.1
    have g1 : ListGrows (p.intern m.filename).1.strings q.strings :=
      (intern_grows _ m.build_id).1.trans g2
    have e1 : q.intern m.filename = (q, (p.intern m.filename).2) :=
      intern_replay_of g1
    have e2 : q.intern m.build_id =
        (q, ((p.intern m.filename).1.intern m.build_id).2) := intern_replay_of g2
    have hmg : ListGrows
        (dedup (((p.intern m.filename).1.intern m.build_id).1).mappings
          { memory_start := m.memory_start
            memory_limit := m.memory_limit
            file_offset := m.file_offset
            filename := (p.intern m.filename).2
            build_id := ((p.intern m.filename).1.intern m.build_id).2 }).1
        q.mappings := hg.2.1
    have ed := dedup_hit_of_grows hmg
    have hqc : ¬ (CONTAINER_MAX ≤ q.strings.length ∨ CONTAINER_MAX ≤ q.mappings.length) := by
      push_neg
      exact ⟨hqs, hqm⟩
    rw [Profile.add_mapping, if_neg hqc]
    simp only [e1, e2, ed]
    simp only [Prod.mk.injEq, true_and]
    exact hok

theorem internLabel_replay {p q : Profile} (l : api.Label)
    (hg : (p.internLabel l).1.Grows q) :
    q.internLabel l = (q, (p.internLabel l).2) := by
  cases hs : l.str with
  | none =>
    cases hn : l.num_unit with
    | none =>
      simp only [Profile.internLabel, hs, hn] at hg ⊢
      have e1 : q.intern l.key = (q, (p.intern l.key).2) :=
        intern_replay_of hg.1
      simp only [e1]
    | some u =>
      simp only [Profile.internLabel, hs, hn] at hg ⊢
      have g2 : ListGrows ((p.intern l.key).1.intern u).1.strings q.strings :=
        hg.1
      have g1 : ListGrows (p.intern l.key).1.strings q.strings :=
        (intern_grows _ u).1.trans g2
      have e1 : q.intern l.key = (q, (p.intern l.key).2) := intern_replay_of g1
      have e2 : q.intern u = (q, ((p.intern l.key).1.intern u).2) :=
        intern_replay_of g2
      simp only [e1, e2]
  | some s =>
    cases hn : l.num_unit with
    | none =>
      simp only [Profile.internLabel, hs, hn] at hg ⊢
      have g2 : ListGrows ((p.intern l.key).1.intern s).1.strings q.strings :=
        hg.1
      have g1 : ListGrows (p.intern l.key).1.strings q.strings :=
        (intern_grows _ s).1.trans g2
      have e1 : q.intern l.key = (q, (p.intern l.key).2) := intern_replay_of g1
      have e2 : q.intern s = (q, ((p.intern l.key).1.intern s).2) :=
        intern_replay_of g2
      simp only [e1, e2]
    | some u =>
      simp only [Profile.internLabel, hs, hn] at hg ⊢
      have g3 : ListGrows (((p.intern l.key).1.intern s).1.intern u).1.strings
          q.strings := hg.1
      have g2 : ListGrows ((p.intern l.key).1.intern s).1.strings q.strings :=
        (intern_grows _ u).1.trans g3
      have g1 : ListGrows (p.intern l.key).1.strings q.strings :=
        (intern_grows _ s).1.trans g2
      have e1 : q.intern l.key = (q, (p.intern l.key).2) := intern_replay_of g1
      have e2 : q.intern s = (q, ((p.intern l.key).1.intern s).2) :=
        intern_replay_of g2
      have e3 : q.intern u = (q, (((p.intern l.key).1.intern s).1.intern u).2) :=
        intern_replay_of g3
      simp only [e1, e2, e3]

theorem internLabels_replay {p q : Profile} (ls : List api.Label)
    (hg : (p.internLabels ls).1.Grows q) :
    q.internLabels ls = (q, (p.internLabels ls).2) := by
  induction ls generalizing p with
  | nil => rfl
  | cons l ls ih =>
    simp only [Profile.internLabels] at hg ⊢
    have hgl : (p.internLabel l).1.Grows q :=
      (internLabels_grows (p.internLabel l).1 ls).gtrans hg
    have e1 : q.internLabel l = (q, (p.internLabel l).2) :=
      internLabel_replay l hgl
    have e2 := ih (p := (p.internLabel l).1) hg
    simp only [e1, e2]

theorem addLines_replay {p q : Profile} (ls : List api.Line)
    (hg : (p.addLines ls).1.Grows q) :
    q.addLines ls = (q, (p.addLines ls).2) := by
  induction ls generalizing p with
  | nil => rfl
  | cons l ls ih =>
    simp only [Profile.addLines] at hg ⊢
    have hgl : (p.add_function l.function).1.Grows q :=
      (addLines_grows (p.add_function l.function).1 ls).gtrans hg
    have e1 : q.add_function l.function = (q, (p.add_function l.function).2) :=
      add_function_replay l.function hgl
    have e2 := ih (p := (p.add_function l.function).1) hg
    simp only [e1, e2]

theorem addLocation_replay {p q : Profile} (loc : api.Location) {id : PProfId}
    (hok : (p.addLocation loc).2 = .ok id)
    (hg : (p.addLocation loc).1.Grows q)
    (hqs : q.strings.length < CONTAINER_MAX)
    (hqm : q.mappings.length < CONTAINER_MAX) :
    q.addLocation loc = (q, .ok id) := by
  cases hm : (p.add_mapping loc.mapping).2 with
  | error e =>
    simp only [Profile.addLocation, hm] at hok
    exact absurd hok (by simp)
  | ok mid =>
    simp only [Profile.addLocation, hm] at hok hg ⊢
    have gRl : ((p.add_mapping loc.mapping).1.addLines loc.lines).1.Grows q :=
      (grows_with_locations (Profile.Grows.grefl _) (dedup_grows _ _)).gtrans hg
    have gRm : (p.add_mapping loc.mapping).1.Grows q :=
      (addLines_grows _ loc.lines).gtrans gRl
    have e_m : q.add_mapping loc.mapping = (q, .ok mid) :=
      add_mapping_replay loc.mapping hm gRm hqs hqm
    have e_l : q.addLines loc.lines =
        (q, ((p.add_mapping loc.mapping).1.addLines loc.lines).2) :=
      addLines_replay loc.lines gRl
    have e_d := dedup_hit_of_grows hg.2.2.2.1
    simp only [e_m, e_l, e_d]
    simp only [Prod.mk.injEq, true_and]
    exact hok

theorem addLocations_replay {p q : Profile} (locs : List api.Location)
    {ids : List PProfId}
    (hok : (p.addLocations locs).2 = .ok ids)
    (hg : (p.addLocations locs).1.Grows q)
    (hqs : q.strings.length < CONTAINER_MAX)
    (hqm : q.mappings.length < CONTAINER_MAX) :
    q.addLocations locs = (q, .ok ids) := by
  induction locs generalizing p ids with
  | nil =>
    simp only [Profile.addLocations] at hok ⊢
    cases hok
    rfl
  | cons loc locs ih =>
    cases hm : (p.addLocation loc).2 with
    | error e =>
      simp only [Profile.addLocations, hm] at hok
      exact absurd hok (by simp)
    | ok lid =>
      cases hrs : ((p.addLocation loc).1.addLocations locs).2 with
      | error e =>
        simp only [Profile.addLocations, hm, hrs] at hok
        exact absurd hok (by simp)
      | ok tids =>
        simp only [Profile.addLocations, hm, hrs] at hok hg ⊢
        have gHead : (p.addLocation loc).1.Grows q :=
          (addLocations_grows _ locs).gtrans hg
        have e_h : q.addLocation loc = (q, .ok lid) :=
          addLocation_replay loc hm gHead hqs hqm
        have e_t : q.addLocations locs = (q, .ok tids) :=
          ih (p := (p.addLocation loc).1) hrs hg
        simp only [e_h, e_t]
        simp only [Prod.mk.injEq, true_and]
        exact hok

/-! ## Lemmas: the sample map -/

theorem addAssignZip_eq_zipWith {es vs : List Int} (h : es.length = vs.length) :
    addAssignZip es vs = List.zipWith (· + ·) es vs := by
  induction es generalizing vs with
  | nil =>
    cases vs with
    | nil => rfl
    | cons v vs => simp at h
  | cons e es ih =>
    cases vs with
    | nil => simp at h
    | cons v vs =>
      simp only [List.length_cons, Nat.add_right_cancel_iff] at h
      simp [addAssignZip, ih h]

theorem updateValuesAt_append_last (l : List (Sample × List Int))
    (kv : Sample × List Int) (vs : List Int) :
    updateValuesAt (l ++ [kv]) l.length vs =
      l ++ [(kv.1, addAssignZip kv.2 vs)] := by
  induction l with
  | nil => rfl
  | cons x l ih => simp [updateValuesAt, ih]

theorem getIndexOf?_append_self {m : List (Sample × List Int)} {key : Sample}
    (h : getIndexOf? m key = none) (vs : List Int) :
    getIndexOf? (m ++ [(key, vs)]) key = some m.length := by
  unfold getIndexOf? at h ⊢
  rw [List.map_append]
  have hmem : key ∉ m.map Prod.fst := firstIdxOf?_eq_none_iff.mp h
  have := firstIdxOf?_append_singleton_self (l := m.map Prod.fst) (a := key) hmem
  simpa using this

/-! ## The core two-adds lemma -/

theorem add_twice_core {p p1 : Profile} {s1 s2 : api.Sample} {id1 : PProfId}
    (hloc : s2.locations = s1.locations) (hlab : s2.labels = s1.labels)
    (hv1 : s1.values.length = p.sample_types.length)
    (hv2 : s2.values.length = p.sample_types.length)
    (h1 : p.add s1 = (p1, .ok id1))
    (hnew : p1.samples.length = p.samples.length + 1)
    (hqs : p1.strings.length < CONTAINER_MAX)
    (hqm : p1.mappings.length < CONTAINER_MAX) :
    (p1.add s2).2 = .ok id1 ∧
    (p1.add s2).1.samples.length = p1.samples.length ∧
    ((p1.add s2).1.samples.get? (p1.samples.length - 1)).map Prod.snd =
      some (List.zipWith (· + ·) s1.values s2.values) := by
  have gP : p.Grows p1 := by
    have hgrow := add_grows p s1
    rw [h1] at hgrow
    exact hgrow
  have hcond1 : ¬ (s1.values.length ≠ p.sample_types.length) := fun hc => hc hv1
  simp only [Profile.add] at h1
  rw [if_neg hcond1] at h1
  cases hA : ((p.internLabels s1.labels).1.addLocations s1.locations).2 with
  | error e =>
    simp only [hA] at h1
    have := congrArg Prod.snd h1
    simp at this
  | ok ids =>
    simp only [hA] at h1
    have hsamp_pre :
        ((p.internLabels s1.labels).1.addLocations s1.locations).1.samples
          = p.samples := by
      rw [addLocations_samples, internLabels_samples]
    cases hIdx : getIndexOf?
        ((p.internLabels s1.labels).1.addLocations s1.locations).1.samples
        { locations := ids, labels := (p.internLabels s1.labels).2 } with
    | some idx =>
      simp only [hIdx] at h1
      have hlen := congrArg (fun x => x.1.samples.length) h1
      simp only [updateValuesAt_length, hsamp_pre] at hlen
      rw [hnew] at hlen
      omega
    | none =>
      simp only [hIdx] at h1
      rw [Prod.mk.injEq] at h1
      obtain ⟨hp1, hid1⟩ := h1
      have hkeylen :
          ((p.internLabels s1.labels).1.addLocations s1.locations).1.samples.length
            = p.samples.length := by rw [hsamp_pre]
      have gRA :
          ((p.internLabels s1.labels).1.addLocations s1.locations).1.Grows p1 := by
        rw [← hp1]
        exact grows_with_samples_append (Profile.Grows.grefl _) _
      have gRL : (p.internLabels s1.labels).1.Grows p1 :=
        (addLocations_grows _ s1.locations).gtrans gRA
      have hv2' : ¬ (s2.values.length ≠ p1.sample_types.length) := by
        rw [← gP.2.2.2.2.2]
        exact fun hc => hc hv2
      have e_labels : p1.internLabels s2.labels =
          (p1, (p.internLabels s1.labels).2) := by
        rw [hlab]
        exact internLabels_replay s1.labels gRL
      have e_locs : p1.addLocations s2.locations = (p1, .ok ids) := by
        rw [hloc]
        exact addLocations_replay s1.locations hA gRA hqs hqm
      have hp1samples :
          p1.samples =
            ((p.internLabels s1.labels).1.addLocations s1.locations).1.samples ++
              [({ locations := ids, labels := (p.internLabels s1.labels).2 },
                s1.values)] := by
        rw [← hp1]
      have hfind : getIndexOf? p1.samples
          { locations := ids, labels := (p.internLabels s1.labels).2 } =
          some ((p.internLabels s1.labels).1.addLocations s1.locations).1.samples.length := by
        rw [hp1samples]
        exact getIndexOf?_append_self hIdx _
      have hupd : updateValuesAt p1.samples
          ((p.internLabels s1.labels).1.addLocations s1.locations).1.samples.length
          s2.values =
          ((p.internLabels s1.labels).1.addLocations s1.locations).1.samples ++
            [({ locations := ids, labels := (p.internLabels s1.labels).2 },
              addAssignZip s1.values s2.values)] := by
        rw [hp1samples]
        exact updateValuesAt_append_last _ _ _
      have hresult : p1.add s2 =
          ({ p1 with samples := (updateValuesAt p1.samples
              (((p.internLabels s1.labels).1.addLocations s1.locations).1.samples.length)
              s2.values) },
            .ok ⟨((p.internLabels s1.labels).1.addLocations s1.locations).1.samples.length + 1⟩) := by
        simp only [Profile.add]
        rw [if_neg hv2']
        simp only [e_labels, e_locs, hfind]
      have hlen1 : p1.samples.length =
          ((p.internLabels s1.labels).1.addLocations s1.locations).1.samples.length + 1 := by
        rw [hp1samples]
        simp
      refine ⟨?_, ?_, ?_⟩
      · rw [hresult]
        exact hid1
      · rw [hresult]
        simp only [updateValuesAt_length]
      · rw [hresult]
        simp only [hupd, hlen1, Nat.add_sub_cancel]
        rw [List.get?_concat_length]
        simp only [Option.map_some']
        rw [addAssignZip_eq_zipWith (hv1.trans hv2.symm)]

/-- Evaluation of `Profile::add` in the miss case, phrased against the
outcomes of its phases so that it can be instantiated on a concrete
profile without unfolding the state. -/
theorem add_eval {p : Profile} {s : api.Sample}
    (hv : s.values.length = p.sample_types.length)
    {pl : Profile} {labs : List Label}
    (hl : p.internLabels s.labels = (pl, labs))
    {pa : Profile} {ids : List PProfId}
    (ha : pl.addLocations s.locations = (pa, .ok ids))
    (hf : getIndexOf? pa.samples { locations := ids, labels := labs } = none) :
    p.add s =
      ({ pa with samples := (pa.samples ++
          [({ locations := ids, labels := labs }, s.values)]) },
        .ok ⟨pa.samples.length + 1⟩) := by
  have hcond : ¬ (s.values.length ≠ p.sample_types.length) := fun hc => hc hv
  simp only [Profile.add]
  rw [if_neg hcond]
  simp only [hl, ha, hf]

/-! ## Claim C10 -/

/-- Claim C10 (confirmed): every `add` call only appends to the profile's
string, mapping, function, location, and sample containers — each
container before the call is an initial segment of the container after
it (`ListGrows`), so every earlier index, and its +1-shifted id, still
denotes the same entry afterwards.  This holds whether the call
succeeds, returns the mismatch sentinel, or fails with `Full`. -/
theorem claim_C10_add_only_appends (p : Profile) (s : api.Sample) :
    ListGrows p.strings (p.add s).1.strings ∧
    ListGrows p.mappings (p.add s).1.mappings ∧
    ListGrows p.functions (p.add s).1.functions ∧
    ListGrows p.locations (p.add s).1.locations ∧
    ListGrows (p.samples.map Prod.fst) ((p.add s).1.samples.map Prod.fst) := by
  obtain ⟨h1, h2, h3, h4, h5, h6⟩ := add_grows p s
  exact ⟨h1, h2, h3, h4, h5⟩

/-! ## Claim C4 -/

/-- Claim C4 (confirmed): when the sample's value count differs from the
profile's sample-type count, `add` returns sample id 0 as a success
value and the profile is returned completely unchanged. -/
theorem claim_C4_add_mismatch (p : Profile) (s : api.Sample)
    (h : s.values.length ≠ p.sample_types.length) :
    p.add s = (p, .ok ⟨0⟩) := by
  simp only [Profile.add]
  rw [if_pos h]

/-- Witness for claim C4 at a concrete profile and sample. -/
theorem claim_C4_witness :
    (([1] : List Int).length ≠ (Profile.new 0 0).sample_types.length) ∧
    (Profile.new 0 0).add { locations := [], values := [1], labels := [] } =
      (Profile.new 0 0, .ok ⟨0⟩) :=
  ⟨by decide, claim_C4_add_mismatch _ _ (by decide)⟩

/-! ## Claim C1 -/

/-- Claim C1 counterexample: on a profile that already holds the sample
key (with stored values `[5]`), two further `add` calls of the same
sample (values `[1]` each) do return the same id, but the stored vector
afterwards is `[7]`, not the elementwise sum `[2]` of the two inputs —
refuting the claim as stated, which quantifies over every profile. -/
theorem claim_C1_counterexample :
    (cexP0.add egSample).2 = .ok ⟨1⟩ ∧
    (cexP1.add egSample).2 = .ok ⟨1⟩ ∧
    (cexP2.samples.get? 0).map Prod.snd = some [7] ∧
    List.zipWith (· + ·) egSample.values egSample.values = [2] ∧
    ([7] : List Int) ≠ [2] :=
  ⟨rfl, rfl, by decide, by decide, by decide⟩

/-- Claim C1 (amended): if the first `add` succeeds and creates a new
sample entry (so the key was not already present) and the string and
mapping tables stay below `CONTAINER_MAX`, then a second `add` of a
sample with equal locations and labels (and matching value count)
returns the same 1-based id, creates no new sample entry, and leaves
stored at that key the elementwise sum of the two value vectors. -/
theorem claim_C1_add_twice (p p1 : Profile) (s1 s2 : api.Sample) (id1 : PProfId)
    (hloc : s2.locations = s1.locations) (hlab : s2.labels = s1.labels)
    (hv1 : s1.values.length = p.sample_types.length)
    (hv2 : s2.values.length = p.sample_types.length)
    (h1 : p.add s1 = (p1, .ok id1))
    (hnew : p1.samples.length = p.samples.length + 1)
    (hqs : p1.strings.length < CONTAINER_MAX)
    (hqm : p1.mappings.length < CONTAINER_MAX) :
    (p1.add s2).2 = .ok id1 ∧
    (p1.add s2).1.samples.length = p1.samples.length ∧
    ((p1.add s2).1.samples.get? (p1.samples.length - 1)).map Prod.snd =
      some (List.zipWith (· + ·) s1.values s2.values) :=
  add_twice_core hloc hlab hv1 hv2 h1 hnew hqs hqm

/-- Witness for claim C1: the double add of a concrete sample on a
builder-made profile (scenario S2 of the spec). -/
theorem claim_C1_witness :
    ((egProfile.add egSample).1.add egSample).2 = .ok ⟨1⟩ ∧
    ((egProfile.add egSample).1.add egSample).1.samples.length =
      (egProfile.add egSample).1.samples.length ∧
    (((egProfile.add egSample).1.add egSample).1.samples.get?
        ((egProfile.add egSample).1.samples.length - 1)).map Prod.snd =
      some (List.zipWith (· + ·) egSample.values egSample.values) :=
  claim_C1_add_twice egProfile (egProfile.add egSample).1 egSample egSample ⟨1⟩
    rfl rfl (by decide) (by decide) (by rfl) (by decide) (by decide)
    (by decide)

/-! ## Claim C2 -/

theorem capSamples_map_fst :
    capSamples.map Prod.fst = (List.range CONTAINER_MAX).map capSampleKey := by
  unfold capSamples
  rw [List.map_map]
  rfl

theorem capSamples_length : capSamples.length = CONTAINER_MAX := by
  unfold capSamples
  rw [List.length_map, List.length_range]

theorem capProfile_key_fresh :
    getIndexOf? capProfile.samples (capSampleKey CONTAINER_MAX) = none := by
  unfold getIndexOf?
  have hps : capProfile.samples = capSamples := rfl
  rw [hps, capSamples_map_fst]
  apply firstIdxOf?_of_forall_ne
  intro x hx
  rw [List.mem_map] at hx
  obtain ⟨i, hi, rfl⟩ := hx
  rw [List.mem_range] at hi
  intro hEq
  have hnum := congrArg (fun s => s.labels.map Label.num) hEq
  simp only [capSampleKey, List.map_cons, List.map_nil, List.cons.injEq,
    and_true] at hnum
  have : i = CONTAINER_MAX := by exact_mod_cast hnum
  omega

theorem capProfile_internLabels :
    capProfile.internLabels capSample.labels =
      (capProfile,
        [{ key := ⟨3⟩, str := ⟨0⟩, num := (CONTAINER_MAX : Int), num_unit := ⟨0⟩ }]) := by
  have hfind : firstIdxOf? capProfile.strings "pid" = some 3 := by decide
  have e_key : capProfile.intern "pid" = (capProfile, ⟨3⟩) := intern_replay hfind
  show capProfile.internLabels
      [{ key := "pid", str := none, num := (CONTAINER_MAX : Int), num_unit := none }] = _
  simp only [Profile.internLabels, Profile.internLabel, e_key]

/-- Claim C2 evidence: `capProfile` already holds `CONTAINER_MAX` sample
entries, yet adding a fresh sample succeeds with `Ok` (id
`CONTAINER_MAX + 1`) and pushes the sample container past
`CONTAINER_MAX`, instead of failing with `Full` as the claim requires.
Only the string and mapping containers are guarded (inside
`add_mapping`); functions, locations, and samples are unguarded. -/
theorem claim_C2_sample_container_overflow :
    (capProfile.add capSample).2 = .ok ⟨CONTAINER_MAX + 1⟩ ∧
    (capProfile.add capSample).1.samples.length = CONTAINER_MAX + 1 ∧
    CONTAINER_MAX < CONTAINER_MAX + 1 := by
  have hps : capProfile.samples = capSamples := rfl
  have e_locs : capProfile.addLocations capSample.locations =
      (capProfile, .ok []) := rfl
  have hfresh := capProfile_key_fresh
  rw [show capSampleKey CONTAINER_MAX =
      ({ locations := [], labels := [{ key := ⟨3⟩, str := ⟨0⟩, num := (CONTAINER_MAX : Int), num_unit := ⟨0⟩ }] } : Sample) from rfl] at hfresh
  have hresult := add_eval (p := capProfile) (s := capSample) rfl
    capProfile_internLabels e_locs hfresh
  refine ⟨?_, ?_, Nat.lt_succ_self _⟩
  · rw [hresult]
    show Except.ok (⟨capProfile.samples.length + 1⟩ : PProfId) =
      Except.ok ⟨CONTAINER_MAX + 1⟩
    rw [hps, capSamples_length]
  · rw [hresult]
    show (capProfile.samples ++
        [(({ locations := [], labels := [{ key := ⟨3⟩, str := ⟨0⟩, num := (CONTAINER_MAX : Int), num_unit := ⟨0⟩ }] } : Sample), capSample.values)]).length
      = CONTAINER_MAX + 1
    rw [List.length_append, hps, capSamples_length]
    rfl

/-! ## Claim C5 -/

theorem internValueTypes_grows (p : Profile) (vts : List api.ValueType) :
    p.Grows (p.internValueTypes vts).1 := by
  induction vts generalizing p with
  | nil => exact Profile.Grows.grefl p
  | cons vt vts ih =>
    simp only [Profile.internValueTypes]
    exact ((intern_grows p _).gtrans (intern_grows _ _)).gtrans (ih _)

theorem build_strings_grows (sts : List api.ValueType)
    (per : Option api.Period) (t1 : Nat) (t2 : Int) :
    ListGrows (Profile.new t1 t2).strings
      (ProfileBuilder.build sts per t1 t2).strings := by
  cases per with
  | none =>
    simp only [ProfileBuilder.build]
    exact (internValueTypes_grows (Profile.new t1 t2) sts).1
  | some per =>
    simp only [ProfileBuilder.build]
    exact ((internValueTypes_grows (Profile.new t1 t2) sts).1.trans
      (intern_grows _ _).1).trans (intern_grows _ _).1

theorem new_get0 (t1 : Nat) (t2 : Int) :
    (Profile.new t1 t2).strings.get? 0 = some "" := rfl

theorem build_get0 (sts : List api.ValueType) (per : Option api.Period)
    (t1 : Nat) (t2 : Int) :
    (ProfileBuilder.build sts per t1 t2).strings.get? 0 = some "" :=
  (build_strings_grows sts per t1 t2).get? (new_get0 t1 t2)

/-- Claim C5 (confirmed): every reachable profile — at creation, after
builder construction, after any `add`, and after any successful `reset`
— resolves string id 0 to the empty string. -/
theorem claim_C5_empty_string_at_zero (p : Profile) (h : p.Reachable) :
    p.get_string ⟨0⟩ = some "" := by
  induction h with
  | new t1 t2 => exact new_get0 t1 t2
  | build sts per t1 t2 => exact build_get0 sts per t1 t2
  | add s hp ih =>
    exact ((add_grows _ s).1).get? ih
  | reset t1 t2 hp heq ih =>
    simp only [Profile.reset] at heq
    split at heq
    · exact absurd heq (by simp)
    · split at heq
      · simp only [Option.some.injEq, Prod.mk.injEq] at heq
        obtain ⟨hq, -⟩ := heq
        rw [← hq]
        exact build_get0 _ _ _ _
      · split at heq
        · simp only [Option.some.injEq, Prod.mk.injEq] at heq
          obtain ⟨hq, -⟩ := heq
          rw [← hq]
          exact build_get0 _ _ _ _
        · exact absurd heq (by simp)

/-- Witness for claim C5: a freshly created profile. -/
theorem claim_C5_witness : (Profile.new 0 0).get_string ⟨0⟩ = some "" :=
  claim_C5_empty_string_at_zero _ (Profile.Reachable.new 0 0)

/-! ## Claim C3 -/

theorem enum_map_get? {α β : Type} (l : List α) (f : Nat × α → β) (i : Nat) :
    ((l.enum).map f).get? i = (l.get? i).map fun a => f (i, a) := by
  rw [List.get?_map, List.get?_enum]
  cases l.get? i <;> simp

/-- Claim C3 (confirmed): the pprof message emits the mapping, location,
and function arrays in insertion order with `id = index + 1`, and each
location's `mapping_id` (and each line's `function_id`, via
`Line.toPprof`) is the model's stored shifted id, copied unchanged. -/
theorem claim_C3_pprof_ids (p : Profile) (now : Nat) :
    (∀ i m, p.mappings.get? i = some m →
      (p.toPprof now).mapping.get? i = some
        { id := i + 1
          memory_start := m.memory_start
          memory_limit := m.memory_limit
          file_offset := m.file_offset
          filename := m.filename.toI64
          build_id := m.build_id.toI64 }) ∧
    (∀ i l, p.locations.get? i = some l →
      (p.toPprof now).location.get? i = some
        { id := i + 1
          mapping_id := l.mapping_id.toU64
          address := l.address
          line := l.lines.map Line.toPprof
          is_folded := l.is_folded }) ∧
    (∀ i f, p.functions.get? i = some f →
      (p.toPprof now).function.get? i = some
        { id := i + 1
          name := f.name.toI64
          system_name := f.system_name.toI64
          filename := f.filename.toI64
          start_line := if f.start_line < 2 ^ 63 then (f.start_line : Int) else 0 }) := by
  refine ⟨?_, ?_, ?_⟩
  · intro i m hm
    show ((p.mappings.enum).map _).get? i = _
    rw [enum_map_get?, hm]
    rfl
  · intro i l hl
    show ((p.locations.enum).map _).get? i = _
    rw [enum_map_get?, hl]
    rfl
  · intro i f hf
    show ((p.functions.enum).map _).get? i = _
    rw [enum_map_get?, hf]
    rfl

/-- Witness for claim C3 on the profile built by one concrete `add`. -/
theorem claim_C3_witness :
    ((egProfile.add egSample).1.toPprof 0).mapping.get? 0 = some
      { id := 1, memory_start := 0, memory_limit := 0, file_offset := 0
        filename := PProfId.toI64 ⟨4⟩, build_id := PProfId.toI64 ⟨0⟩ } ∧
    ((egProfile.add egSample).1.toPprof 0).location.get? 0 = some
      { id := 1, mapping_id := PProfId.toU64 ⟨1⟩, address := 0
        line := [{ function_id := ⟨1⟩, line := 0 }].map Line.toPprof
        is_folded := false } ∧
    ((egProfile.add egSample).1.toPprof 0).function.get? 0 = some
      { id := 1, name := PProfId.toI64 ⟨5⟩, system_name := PProfId.toI64 ⟨5⟩
        filename := PProfId.toI64 ⟨6⟩
        start_line := if (0 : Nat) < 2 ^ 63 then ((0 : Nat) : Int) else 0 } :=
  ⟨(claim_C3_pprof_ids (egProfile.add egSample).1 0).1 0
      { memory_start := 0, memory_limit := 0, file_offset := 0
        filename := ⟨4⟩, build_id := ⟨0⟩ } (by decide),
    (claim_C3_pprof_ids (egProfile.add egSample).1 0).2.1 0
      { mapping_id := ⟨1⟩, address := 0
        lines := [{ function_id := ⟨1⟩, line := 0 }], is_folded := false }
      (by decide),
    (claim_C3_pprof_ids (egProfile.add egSample).1 0).2.2 0
      { name := ⟨5⟩, system_name := ⟨5⟩, filename := ⟨6⟩, start_line := 0 }
      (by decide)⟩

/-! ## Claim C7 -/

/-- Claim C7 counterexample: with a monotonic elapsed time of `2^63`
nanoseconds (one beyond `i64::MAX`), the encoded `duration_nanos` is 0 —
not the saturated value `2^63 - 1` and not the elapsed value — so the
conversion falls back to 0 rather than saturating. -/
theorem claim_C7_counterexample :
    ((Profile.new 0 0).toPprof (2 ^ 63)).duration_nanos = 0 ∧
    (0 : Int) ≠ 2 ^ 63 - 1 ∧
    (0 : Int) ≠ 2 ^ 63 := by
  refine ⟨?_, by decide, by decide⟩
  show durationNanosOf (Profile.new 0 0).started_at (2 ^ 63) = 0
  show (if (2 ^ 63 - (Profile.new 0 0).started_at : Nat) < 2 ^ 63
    then ((2 ^ 63 - (Profile.new 0 0).started_at : Nat) : Int) else 0) = 0
  rw [if_neg]
  show ¬ (2 ^ 63 - 0 : Nat) < 2 ^ 63
  omega

/-- Claim C7 (amended): `duration_nanos` equals the monotonic elapsed
nanoseconds since `started_at` whenever that value fits an `i64`; when
it exceeds `i64::MAX` the field falls back to 0 (it does not
saturate). -/
theorem claim_C7_duration_nanos (p : Profile) (now : Nat) :
    (now - p.started_at ≤ 2 ^ 63 - 1 →
      (p.toPprof now).duration_nanos = ((now - p.started_at : Nat) : Int)) ∧
    (2 ^ 63 - 1 < now - p.started_at →
      (p.toPprof now).duration_nanos = 0) := by
  constructor
  · intro h
    show durationNanosOf p.started_at now = _
    unfold durationNanosOf
    rw [if_pos (by omega)]
  · intro h
    show durationNanosOf p.started_at now = _
    unfold durationNanosOf
    rw [if_neg (by omega)]

/-- Witness for claim C7: elapsed time 7 ns is reproduced exactly. -/
theorem claim_C7_witness :
    ((Profile.new 5 0).toPprof 12).duration_nanos =
      ((12 - (Profile.new 5 0).started_at : Nat) : Int) :=
  (claim_C7_duration_nanos (Profile.new 5 0) 12).1 (by decide)

/-! ## Claim C6 -/

theorem hexVal_hexDigitChar : ∀ n, n < 16 →
    exporter.uds.hexVal? (exporter.uds.hexDigitChar n) = some n := by decide

theorem hexDecode_hexChars (bs : List Nat) (h : ∀ b ∈ bs, b < 256) :
    exporter.uds.hexDecodeChars (exporter.uds.hexChars bs) = some bs := by
  induction bs with
  | nil => rfl
  | cons b bs ih =>
    have hb : b < 256 := h b (List.mem_cons_self b bs)
    have hhi : b / 16 < 16 := Nat.div_lt_of_lt_mul (by omega)
    have hlo : b % 16 < 16 := Nat.mod_lt _ (by norm_num)
    have hrest := ih fun x hx => h x (List.mem_cons_of_mem b hx)
    simp only [exporter.uds.hexChars, exporter.uds.hexDecodeChars,
      hexVal_hexDigitChar _ hhi, hexVal_hexDigitChar _ hlo, hrest,
      Nat.div_add_mod]

/-- Claim C6 (confirmed): for every byte sequence valid as a filesystem
path (each byte below 256, length at most 108), decoding the synthetic
`unix://` URI produced by `socket_path_to_uri` returns exactly the
original bytes. -/
theorem claim_C6_roundtrip (path : List Nat) (hb : ∀ b ∈ path, b < 256)
    (hlen : path.length ≤ 108) :
    exporter.uds.socket_path_from_uri (exporter.uds.socket_path_to_uri path) =
      .ok path := by
  unfold exporter.uds.socket_path_from_uri exporter.uds.socket_path_to_uri
  rw [if_neg (by simp)]
  show (match exporter.uds.hexDecodeChars
      (String.mk (exporter.uds.hexChars path)).data with
    | none => Except.error exporter.Error.InvalidUrl
    | some bytes => Except.ok bytes) = Except.ok path
  rw [show (String.mk (exporter.uds.hexChars path)).data =
    exporter.uds.hexChars path from rfl]
  rw [hexDecode_hexChars path hb]

/-- Witness for claim C6 at the spec's scenario S1 path. -/
theorem claim_C6_witness :
    exporter.uds.socket_path_from_uri
      (exporter.uds.socket_path_to_uri socketPathBytes) = .ok socketPathBytes :=
  claim_C6_roundtrip socketPathBytes (by decide) (by decide)

/-! ## Claim C8 -/

/-- Claim C8 counterexample: an HTTPS-capable connector whose wrapped
`hyper_rustls` connector resolves to a plaintext stream also fails with
`CannotEstablishTlsConnection` on an `https` URI, so the error is not
equivalent to HTTP-only construction. -/
theorem claim_C8_counterexample :
    exporter.MaybeHttpsConnector.Https.call (some "https") (.ok .Http) (.ok ()) (.ok ()) =
      .error .CannotEstablishTlsConnection ∧
    exporter.MaybeHttpsConnector.Https ≠ exporter.MaybeHttpsConnector.Http := by
  exact ⟨rfl, by decide⟩

/-- Claim C8 (amended): for an `https` URI, `call` resolves to
`CannotEstablishTlsConnection` iff the connector is HTTP-only, or it is
HTTPS-capable and the wrapped connector either produced a plaintext
stream or itself failed with that error. -/
theorem claim_C8_https_tls_error (mode : exporter.MaybeHttpsConnector)
    (innerHttps : Except exporter.Error exporter.MaybeHttpsStream)
    (innerHttp udsConn : Except exporter.Error Unit) :
    mode.call (some "https") innerHttps innerHttp udsConn =
        .error .CannotEstablishTlsConnection ↔
      (mode = .Http ∨
        innerHttps = .ok .Http ∨
        innerHttps = .error .CannotEstablishTlsConnection) := by
  cases mode with
  | Http =>
    have hc : exporter.MaybeHttpsConnector.Http.call (some "https") innerHttps innerHttp
        udsConn = .error .CannotEstablishTlsConnection := rfl
    rw [hc]
    simp
  | Https =>
    rcases innerHttps with e | s
    · have hc : exporter.MaybeHttpsConnector.Https.call (some "https") (.error e)
          innerHttp udsConn = .error e := rfl
      rw [hc]
      cases e <;> simp
    · cases s with
      | Http =>
        have hc : exporter.MaybeHttpsConnector.Https.call (some "https") (.ok .Http)
            innerHttp udsConn = .error .CannotEstablishTlsConnection := rfl
        rw [hc]
        simp
      | Https =>
        have hc : exporter.MaybeHttpsConnector.Https.call (some "https") (.ok .Https)
            innerHttp udsConn = .ok .Tls := rfl
        rw [hc]
        simp

/-- Witness for claim C8: an HTTP-only connector on an `https` URI. -/
theorem claim_C8_witness :
    exporter.MaybeHttpsConnector.Http.call (some "https") (.ok .Https) (.ok ()) (.ok ()) =
      .error .CannotEstablishTlsConnection :=
  (claim_C8_https_tls_error exporter.MaybeHttpsConnector.Http (.ok .Https) (.ok ())
    (.ok ())).mpr (Or.inl rfl)

/-! ## Claim C9 -/

theorem Tag.new_ok {k : List Char} {v : List Char} {ch : Char}
    (hfind : k.find? exporter.tagValidChar = some ch) (hch : ch ≠ ':') :
    exporter.Tag.new k v = .ok { key := k, value := v } := by
  have hk : k ≠ [] := by
    intro hnil
    rw [hnil] at hfind
    simp [List.find?] at hfind
  unfold exporter.Tag.new
  rw [if_neg hk]
  simp only [hfind]
  rw [if_neg hch]

/-- Claim C9 (amended): `parse_tag_chunk` errors on a chunk beginning
with `:`; errors on any chunk that contains a `:` and also ends with `:`
(not only when nothing follows the first one); for a chunk without `:`
whose key passes tag validation it returns the key-only tag with empty
value; and for the remaining chunks with `:` whose key (the text before
the first `:`) passes validation it returns the tag splitting at the
first colon. -/
theorem claim_C9_parse_tag_chunk (c : List Char) :
    (c.head? = some ':' → exporter.parse_tag_chunk c =
      .error "tag cannot start with a colon") ∧
    (':' ∈ c → c.getLast? = some ':' → exporter.parse_tag_chunk c =
      .error "tag cannot start with a colon" ∨
      exporter.parse_tag_chunk c = .error "tag cannot end with a colon") ∧
    (':' ∉ c → (∀ ch, c.find? exporter.tagValidChar = some ch → ch ≠ ':') →
      c.find? exporter.tagValidChar ≠ none →
      exporter.parse_tag_chunk c = .ok { key := c, value := [] }) ∧
    (∀ i, firstIdxOf? c ':' = some i → 0 < i → c.getLast? ≠ some ':' →
      ∀ ch, (c.take i).find? exporter.tagValidChar = some ch → ch ≠ ':' →
      exporter.parse_tag_chunk c =
        .ok { key := c.take i, value := c.drop (i + 1) }) := by
  refine ⟨?_, ?_, ?_, ?_⟩
  · intro hhead
    cases c with
    | nil => simp at hhead
    | cons x xs =>
      rw [List.head?_cons, Option.some.injEq] at hhead
      subst hhead
      unfold exporter.parse_tag_chunk
      simp only [show firstIdxOf? (':' :: xs) ':' = some 0 from by
        simp [firstIdxOf?]]
      rw [if_pos trivial]
  · intro hmem hlast
    cases hf : firstIdxOf? c ':' with
    | none => exact absurd hmem (fun _ => (firstIdxOf?_eq_none_iff.mp hf) hmem)
    | some i =>
      unfold exporter.parse_tag_chunk
      simp only [hf]
      by_cases hi : i = 0
      · left
        rw [if_pos hi]
      · right
        rw [if_neg hi, if_pos hlast]
  · intro hnotmem hval hsome
    have hf : firstIdxOf? c ':' = none := firstIdxOf?_eq_none_iff.mpr hnotmem
    unfold exporter.parse_tag_chunk
    simp only [hf]
    cases hfind : c.find? exporter.tagValidChar with
    | none => exact absurd hfind hsome
    | some ch => exact Tag.new_ok hfind (hval ch hfind)
  · intro i hf hi hlast ch hfind hch
    unfold exporter.parse_tag_chunk
    simp only [hf]
    rw [if_neg (Nat.pos_iff_ne_zero.mp hi), if_neg hlast]
    exact Tag.new_ok hfind hch

/-- Claim C9 counterexample: the chunk `a:b:` has a colon at position 1
(not leading) with the text `b:` after the first colon, yet the code
errors with "tag cannot end with a colon" instead of returning the tag
`(a, "b:")` the claim requires. -/
theorem claim_C9_counterexample :
    exporter.parse_tag_chunk "a:b:".data =
      .error "tag cannot end with a colon" ∧
    exporter.parse_tag_chunk "a:b:".data ≠
      .ok { key := "a".data, value := "b:".data } ∧
    firstIdxOf? "a:b:".data ':' = some 1 := by
  refine ⟨by decide, ?_, by decide⟩
  intro h
  rw [show exporter.parse_tag_chunk "a:b:".data =
    .error "tag cannot end with a colon" from by decide] at h
  exact absurd h (by simp)

/-- Witness for claim C9: the spec's S5 chunk `env:staging:east` parses
to the tag `(env, staging:east)`. -/
theorem claim_C9_witness :
    exporter.parse_tag_chunk "env:staging:east".data =
      .ok { key := ("env:staging:east".data).take 3
            value := ("env:staging:east".data).drop (3 + 1) } :=
  (claim_C9_parse_tag_chunk "env:staging:east".data).2.2.2 3 (by decide)
    (by decide) (by decide) 'e' (by decide) (by decide)
